import Mathlib

/-!
Verification of the clawstr-cli social trust-graph core.

The definitions below are a shallow embedding of the TypeScript source:
the three SQLite relations (contacts, mutes, graph_cache) become lists of
rows with primary-key upsert semantics (INSERT OR REPLACE removes any row
with the same key and appends the new row), and the store operations from
src/lib/social/contacts.ts, src/lib/social/mutes.ts, src/lib/social/graph.ts
and the commands in src/commands/social.ts become pure functions on that
state.  Wall-clock columns (added_at, updated_at) play no role in any
verified property and are omitted from the row types.
-/

namespace Clawstr

/-- Contact row of the contacts relation (primary key: pubkey).  The same
shape is used for the input items of bulkInsertContacts. -/
structure Contact where
  pubkey : String
  relay : Option String
  petname : Option String
deriving Repr, DecidableEq

/-- GraphEdge row of the graph_cache relation
(composite primary key: source_pubkey, target_pubkey). -/
structure GraphEdge where
  source_pubkey : String
  target_pubkey : String
  distance : Nat
deriving Repr, DecidableEq

/-- The whole persistent store: contacts, mutes (pubkeys only) and the
graph cache. -/
structure SocialDb where
  contacts : List Contact
  mutes : List String
  graph_cache : List GraphEdge
deriving Repr, DecidableEq

/-- JavaScript `x || null` applied to an optional string: an absent or
empty string both become NULL in the store. -/
def jsOrNull : Option String → Option String
  | none => none
  | some s => if s = "" then none else some s

/-- One INSERT OR REPLACE into the contacts relation: any row with the
same pubkey is replaced. -/
def upsertContactRow (rows : List Contact) (c : Contact) : List Contact :=
  rows.filter (fun r => r.pubkey != c.pubkey) ++ [c]

/-- Stored contact row built from a bulk-insert input item, applying the
`contact.relay || null` and `contact.petname || null` normalisation of
bulkInsertContacts. -/
def contactRowOf (i : Contact) : Contact :=
  ⟨i.pubkey, jsOrNull i.relay, jsOrNull i.petname⟩

/-- bulkInsertContacts (contacts.ts): one INSERT OR REPLACE per item, in
input order, normalising relay and petname with `contact.relay || null`. -/
def bulkInsertContacts (rows : List Contact) (items : List Contact) : List Contact :=
  items.foldl (fun rs i => upsertContactRow rs (contactRowOf i)) rows

/-- getContactCount (contacts.ts): SELECT COUNT(*) FROM contacts. -/
def getContactCount (db : SocialDb) : Nat :=
  db.contacts.length

/-- isContact (contacts.ts): SELECT 1 FROM contacts WHERE pubkey = ?. -/
def isContact (db : SocialDb) (pubkey : String) : Bool :=
  db.contacts.any (fun c => c.pubkey == pubkey)

/-- One INSERT OR REPLACE into the mutes relation. -/
def upsertMuteRow (rows : List String) (pubkey : String) : List String :=
  rows.filter (fun r => r != pubkey) ++ [pubkey]

/-- bulkInsertMutes (mutes.ts): one INSERT OR REPLACE per pubkey. -/
def bulkInsertMutes (rows : List String) (pubkeys : List String) : List String :=
  pubkeys.foldl upsertMuteRow rows

/-- isMuted (mutes.ts): SELECT 1 FROM mutes WHERE pubkey = ?. -/
def isMuted (db : SocialDb) (pubkey : String) : Bool :=
  db.mutes.contains pubkey

/-- One INSERT OR REPLACE into graph_cache on the composite key
(source_pubkey, target_pubkey). -/
def upsertEdgeRow (rows : List GraphEdge) (e : GraphEdge) : List GraphEdge :=
  rows.filter
    (fun x => !(x.source_pubkey == e.source_pubkey && x.target_pubkey == e.target_pubkey))
    ++ [e]

/-- updateGraphCache (graph.ts): upsert one edge per followed pubkey with
the given source and distance. -/
def updateGraphCache (db : SocialDb) (sourcePubkey : String) (follows : List String)
    (distance : Nat) : SocialDb :=
  { db with
    graph_cache :=
      follows.foldl (fun es t => upsertEdgeRow es ⟨sourcePubkey, t, distance⟩)
        db.graph_cache }

/-- SQL MIN over a column: NULL on the empty set, otherwise the least value. -/
def sqlMin : List Nat → Option Nat
  | [] => none
  | d :: ds => some (ds.foldl Nat.min d)

/-- Rows of graph_cache matched by the resolver's query: source_pubkey is in
the contacts relation and target_pubkey is the queried target. -/
def cacheRowsFor (db : SocialDb) (targetPubkey : String) : List GraphEdge :=
  db.graph_cache.filter
    (fun e => (db.contacts.any (fun c => c.pubkey == e.source_pubkey))
      && e.target_pubkey == targetPubkey)

/-- getTrustDistance (graph.ts): 0 for self, 1 for a direct contact,
otherwise SELECT MIN(distance) + 1 over cached edges whose source is a
contact and whose target is the queried pubkey; null when no row matches. -/
def getTrustDistance (db : SocialDb) (targetPubkey myPubkey : String) : Option Nat :=
  if targetPubkey == myPubkey then
    some 0
  else if (db.contacts.map (fun c => c.pubkey)).contains targetPubkey then
    some 1
  else
    (sqlMin ((cacheRowsFor db targetPubkey).map (fun e => e.distance))).map (· + 1)

/-- filterByTrustDistance (graph.ts): drop muted pubkeys, then drop pubkeys
with no resolved distance, then keep exactly those within maxDistance. -/
def filterByTrustDistance (db : SocialDb) (pubkeys : List String) (myPubkey : String)
    (maxDistance : Nat) : List String :=
  pubkeys.filter (fun pubkey =>
    if isMuted db pubkey then
      false
    else
      match getTrustDistance db pubkey myPubkey with
      | none => false
      | some d => decide (d ≤ maxDistance))

/-- clearGraphCache (graph.ts): DELETE FROM graph_cache. -/
def clearGraphCache (db : SocialDb) : SocialDb :=
  { db with graph_cache := [] }

/-- Trust-distance algorithm exactly as the specification words it: target
equals self gives 0, a direct Contact gives 1, otherwise the minimum edge
distance plus one over cached edges from a current Contact to the target
when at least one such edge exists, otherwise unknown (none). -/
def distanceSpec (db : SocialDb) (target self : String) : Option Nat :=
  if target = self then some 0
  else if isContact db target then some 1
  else
    match ((cacheRowsFor db target).map (fun e => e.distance)).min? with
    | some m => some (m + 1)
    | none => none

/-- clearContacts (contacts.ts): DELETE FROM contacts. -/
def clearContacts (db : SocialDb) : SocialDb :=
  { db with contacts := [] }

/-- clearMutes (mutes.ts): DELETE FROM mutes. -/
def clearMutes (db : SocialDb) : SocialDb :=
  { db with mutes := [] }

/-- Nostr event as read by the sync and filter commands: author pubkey and
tag list. -/
structure NostrEvent where
  pubkey : String
  tags : List (List String)
deriving Repr, DecidableEq

/-- Tags whose first element is the letter p. -/
def pTags (ev : NostrEvent) : List (List String) :=
  ev.tags.filter (fun t => t.head? == some "p")

/-- Pubkey values of the p tags (element 1 of each tag); a valueless p tag
reads as the empty string here (in the source such a tag reaches the SQL
layer as undefined and aborts the write, a case outside every claim). -/
def pTagValues (ev : NostrEvent) : List String :=
  (pTags ev).map (fun t => t.getD 1 "")

/-- Step 1 of graphSyncCommand (social.ts): when a contact-list record was
found, clear the contacts relation and bulk-insert the record's p-tag
triples (pubkey, relay, petname); otherwise leave contacts untouched. -/
def syncContactsStep (db : SocialDb) (contactEvents : List NostrEvent) : SocialDb :=
  match contactEvents with
  | [] => db
  | latest :: _ =>
    let cleared := clearContacts db
    { cleared with
      contacts := bulkInsertContacts cleared.contacts
        ((pTags latest).map (fun t => ⟨t.getD 1 "", t.get? 2, t.get? 3⟩)) }

/-- Step 2 of graphSyncCommand: replace the mutes relation from the newest
mute-list record when one was found, else leave it untouched. -/
def syncMutesStep (db : SocialDb) (muteEvents : List NostrEvent) : SocialDb :=
  match muteEvents with
  | [] => db
  | latest :: _ =>
    let cleared := clearMutes db
    { cleared with
      mutes := bulkInsertMutes cleared.mutes ((pTags latest).map (fun t => t.getD 1 "")) }

/-- Step 3 of graphSyncCommand: when depth exceeds 1, clear the graph
cache and, when there is at least one contact, upsert one distance-1 edge
per p tag of each returned follow-list record, keyed by its author. -/
def syncCacheStep (db : SocialDb) (depth : Nat) (followsEvents : List NostrEvent) : SocialDb :=
  if 1 < depth then
    let db3 := clearGraphCache db
    if 0 < db3.contacts.length then
      followsEvents.foldl (fun s ev => updateGraphCache s ev.pubkey (pTagValues ev) 1) db3
    else db3
  else db

/-- graphSyncCommand (social.ts), store-mutating part of one sync run:
the three steps in order.  The three event lists are what the endpoints
returned for the three queries issued by the command: the newest own
contact-list record, the newest own mute-list record, and the follow-list
records requested for the current contacts. -/
def graphSync (db : SocialDb) (depth : Nat)
    (contactEvents muteEvents followsEvents : List NostrEvent) : SocialDb :=
  syncCacheStep (syncMutesStep (syncContactsStep db contactEvents) muteEvents)
    depth followsEvents

/-- Outcome of JSON-parsing one input line in graphFilterCommand: the
parse throws, or yields a record without a truthy pubkey field, or yields
a record with author pubkey.  The JSON parser itself is external to the
core and is passed in as a function. -/
inductive ParseResult where
  | fail
  | noAuthor
  | author (pubkey : String)
deriving Repr, DecidableEq

/-- Loop body of graphFilterCommand (social.ts) on one line, threading the
emitted lines and the passed/filtered counters: an unparsable line or a
record without an author passes through unchanged; an authored record is
dropped when the author is muted, emitted when the trust filter keeps the
author, and dropped otherwise. -/
def graphFilterStep (db : SocialDb) (selfPubkey : String) (maxDistance : Nat)
    (parse : String → ParseResult) (acc : List String × Nat × Nat) (line : String) :
    List String × Nat × Nat :=
  match parse line with
  | .fail => (acc.1 ++ [line], acc.2.1 + 1, acc.2.2)
  | .noAuthor => (acc.1 ++ [line], acc.2.1 + 1, acc.2.2)
  | .author pk =>
    if isMuted db pk then
      (acc.1, acc.2.1, acc.2.2 + 1)
    else if 0 < (filterByTrustDistance db [pk] selfPubkey maxDistance).length then
      (acc.1 ++ [line], acc.2.1 + 1, acc.2.2)
    else
      (acc.1, acc.2.1, acc.2.2 + 1)

/-- Line loop of graphFilterCommand: emitted lines, passed count, filtered
count, starting from empty output and zero counters. -/
def graphFilterRun (db : SocialDb) (selfPubkey : String) (maxDistance : Nat)
    (parse : String → ParseResult) (lines : List String) : List String × Nat × Nat :=
  lines.foldl (graphFilterStep db selfPubkey maxDistance parse) ([], 0, 0)

/-- Line splitting of graphFilterCommand: trim the whole stdin input,
split on newlines, and discard empty strings (filter(Boolean)). -/
def linesOf (input : String) : List String :=
  (input.trim.splitOn "\n").filter (fun l => l != "")

/-- graphFilterCommand (social.ts): split stdin into nonempty lines and
run the filter loop over them. -/
def graphFilterCommand (db : SocialDb) (selfPubkey : String) (maxDistance : Nat)
    (parse : String → ParseResult) (input : String) : List String × Nat × Nat :=
  graphFilterRun db selfPubkey maxDistance parse (linesOf input)

/-- Keep-decision for one line exactly as the specification words it: an
unparsable or author-less line passes through; otherwise the line is kept
exactly when its author survives the trust filter. -/
def lineKeepSpec (db : SocialDb) (selfPubkey : String) (maxDistance : Nat)
    (parse : String → ParseResult) (line : String) : Bool :=
  match parse line with
  | .fail => true
  | .noAuthor => true
  | .author pk => (filterByTrustDistance db [pk] selfPubkey maxDistance).contains pk

/-- publishEvent (relays.ts): one send per relay, index-aligned with the
settlement outcomes (true = fulfilled), returning the relays whose send
settled fulfilled.  Promise.allSettled yields one outcome per relay in
order, embedded here as a Bool list aligned with the relay list. -/
def publishEvent (relays : List String) (settled : List Bool) : List String :=
  ((relays.zip settled).filter (fun p => p.2)).map (fun p => p.1)

/-- SQL MIN agrees with the minimum of the value list. -/
theorem sqlMin_eq_min? (l : List Nat) : sqlMin l = l.min? := by
  cases l <;> rfl

end Clawstr

namespace Clawstr

/-- Membership of a pubkey in the projected contact-pubkey list agrees
with isContact. -/
theorem contains_map_pubkey (db : SocialDb) (x : String) :
    (db.contacts.map (fun c => c.pubkey)).contains x = isContact db x := by
  rw [Bool.eq_iff_iff]
  simp [isContact, List.contains, List.any_map, List.any_eq_true]

/-- A stored contact's pubkey is found by the direct-contact lookup. -/
theorem contains_of_mem_contacts {db : SocialDb} {c : Contact} (h : c ∈ db.contacts) :
    (db.contacts.map (fun x => x.pubkey)).contains c.pubkey = true := by
  rw [contains_map_pubkey]
  simp only [isContact, List.any_eq_true, beq_iff_eq]
  exact ⟨c, h, rfl⟩

/-- Folding cache updates over a list of events never touches contacts. -/
theorem foldl_updateGraphCache_contacts (evs : List NostrEvent) :
    ∀ (s : SocialDb),
      (evs.foldl (fun s ev => updateGraphCache s ev.pubkey (pTagValues ev) 1) s).contacts
        = s.contacts := by
  induction evs with
  | nil => intro s; rfl
  | cons e es ih => intro s; rw [List.foldl_cons, ih]; rfl

/-- Step 3 of the sync never touches contacts. -/
theorem syncCacheStep_contacts (db : SocialDb) (depth : Nat) (fE : List NostrEvent) :
    (syncCacheStep db depth fE).contacts = db.contacts := by
  unfold syncCacheStep
  by_cases h : 1 < depth
  · rw [if_pos h]
    by_cases h2 : 0 < (clearGraphCache db).contacts.length
    · simp only [h2, if_true, foldl_updateGraphCache_contacts]; rfl
    · simp only [h2, if_false]; rfl
  · rw [if_neg h]

/-- Step 2 of the sync never touches contacts. -/
theorem syncMutesStep_contacts (db : SocialDb) (mE : List NostrEvent) :
    (syncMutesStep db mE).contacts = db.contacts := by
  cases mE <;> rfl

/-- An edge surviving a single-edge upsert was already stored or is the
upserted edge. -/
theorem mem_upsertEdgeRow {rows : List GraphEdge} {e x : GraphEdge}
    (h : x ∈ upsertEdgeRow rows e) : x ∈ rows ∨ x = e := by
  unfold upsertEdgeRow at h
  rcases List.mem_append.mp h with h1 | h1
  · exact Or.inl (List.mem_of_mem_filter h1)
  · exact Or.inr (List.mem_singleton.mp h1)

/-- An edge in the cache after upserting one source's follow list was
already cached or records one of the follows at the given distance. -/
theorem mem_foldl_upsertEdge {src : String} {d : Nat} (follows : List String) :
    ∀ (es : List GraphEdge) (x : GraphEdge),
      x ∈ follows.foldl (fun es t => upsertEdgeRow es ⟨src, t, d⟩) es →
      x ∈ es ∨ (x.source_pubkey = src ∧ x.target_pubkey ∈ follows ∧ x.distance = d) := by
  induction follows with
  | nil => intro es x h; exact Or.inl h
  | cons t ts ih =>
    intro es x h
    rw [List.foldl_cons] at h
    rcases ih _ x h with h1 | h1
    · rcases mem_upsertEdgeRow h1 with h2 | h2
      · exact Or.inl h2
      · subst h2; exact Or.inr ⟨rfl, List.mem_cons_self _ _, rfl⟩
    · exact Or.inr ⟨h1.1, List.mem_cons_of_mem _ h1.2.1, h1.2.2⟩

/-- An edge in the cache after processing a list of follow-list events was
already cached or comes from one of the events, with the event's author as
source, one of its p-tag values as target, and distance 1. -/
theorem mem_foldl_updateGraphCache (evs : List NostrEvent) :
    ∀ (s : SocialDb) (x : GraphEdge),
      x ∈ (evs.foldl (fun s ev => updateGraphCache s ev.pubkey (pTagValues ev) 1) s).graph_cache →
      x ∈ s.graph_cache ∨
        ∃ ev ∈ evs, x.source_pubkey = ev.pubkey ∧ x.target_pubkey ∈ pTagValues ev
          ∧ x.distance = 1 := by
  induction evs with
  | nil => intro s x h; exact Or.inl h
  | cons e es ih =>
    intro s x h
    rw [List.foldl_cons] at h
    rcases ih _ x h with h1 | h1
    · rcases mem_foldl_upsertEdge _ _ _ h1 with h2 | h2
      · exact Or.inl h2
      · exact Or.inr ⟨e, List.mem_cons_self _ _, h2⟩
    · obtain ⟨ev, hev, h2⟩ := h1
      exact Or.inr ⟨ev, List.mem_cons_of_mem _ hev, h2⟩

/-- C1: the trust-distance resolver implements the specified algorithm:
0 for self, 1 for a direct Contact, otherwise min edge distance plus one
over cached edges from a current Contact to the target when such an edge
exists, otherwise unknown. -/
theorem getTrustDistance_eq_distanceSpec (db : SocialDb) (target self : String) :
    getTrustDistance db target self = distanceSpec db target self := by
  unfold getTrustDistance distanceSpec
  by_cases h : target = self
  · simp [h]
  · have hb : (target == self) = false := by
      simp [h]
    have hc : (db.contacts.map (fun c => c.pubkey)).contains target = isContact db target := by
      rw [Bool.eq_iff_iff]
      simp [isContact, List.contains, List.any_map, List.any_eq_true]
    rw [hb, hc, if_neg h]
    simp only [Bool.false_eq_true, if_false]
    by_cases h2 : isContact db target = true
    · simp [h2]
    · simp only [h2, if_false, Bool.false_eq_true]
      rw [sqlMin_eq_min?]
      cases ((cacheRowsFor db target).map (fun e => e.distance)).min? <;> rfl

/-- C2: the trust filter is an order-preserving subsequence of the input in
which an author is dropped when Muted (regardless of its distance, even a
direct Contact), otherwise dropped when its distance is unknown, and
otherwise kept exactly when its distance is at most maxDistance. -/
theorem filterByTrustDistance_spec (db : SocialDb) (pubkeys : List String)
    (myPubkey : String) (maxDistance : Nat) :
    (filterByTrustDistance db pubkeys myPubkey maxDistance).Sublist pubkeys ∧
    filterByTrustDistance db pubkeys myPubkey maxDistance =
      pubkeys.filter (fun author =>
        (!isMuted db author)
          && (match getTrustDistance db author myPubkey with
              | none => false
              | some d => decide (d ≤ maxDistance))) := by
  constructor
  · exact List.filter_sublist _
  · unfold filterByTrustDistance
    apply List.filter_congr
    intro pk _
    cases h : isMuted db pk <;> simp [h]

/-- C9: clearing the graph cache deletes only cached edges: the contacts
and mutes relations are unchanged, the resolver's result for self and for
every direct Contact is unchanged, the result for self is 0, and the
result for a direct Contact other than self is 1. -/
theorem clearGraphCache_frame (db : SocialDb) (selfPubkey : String) :
    (clearGraphCache db).contacts = db.contacts ∧
    (clearGraphCache db).mutes = db.mutes ∧
    getTrustDistance (clearGraphCache db) selfPubkey selfPubkey
      = getTrustDistance db selfPubkey selfPubkey ∧
    getTrustDistance db selfPubkey selfPubkey = some 0 ∧
    (∀ c ∈ db.contacts,
      getTrustDistance (clearGraphCache db) c.pubkey selfPubkey
        = getTrustDistance db c.pubkey selfPubkey) ∧
    (∀ c ∈ db.contacts, c.pubkey ≠ selfPubkey →
      getTrustDistance db c.pubkey selfPubkey = some 1) := by
  refine ⟨rfl, rfl, ?_, ?_, ?_, ?_⟩
  · simp [getTrustDistance]
  · simp [getTrustDistance]
  · intro c hc
    by_cases hs : c.pubkey = selfPubkey
    · simp [getTrustDistance, hs]
    · have hb : (c.pubkey == selfPubkey) = false := by simp [hs]
      have hp : ∃ a ∈ db.contacts, a.pubkey = c.pubkey := ⟨c, hc, rfl⟩
      simp [getTrustDistance, clearGraphCache, hb, hp]
  · intro c hc hne
    have hb : (c.pubkey == selfPubkey) = false := by simp [hne]
    have hp : ∃ a ∈ db.contacts, a.pubkey = c.pubkey := ⟨c, hc, rfl⟩
    simp [getTrustDistance, hb, hp]

/-- Witness for C9 at a concrete store with one contact and one cached
edge. -/
theorem clearGraphCache_frame_witness :
    getTrustDistance (clearGraphCache ⟨[⟨"a", none, none⟩], [], [⟨"a", "b", 1⟩]⟩) "a" "s"
      = getTrustDistance ⟨[⟨"a", none, none⟩], [], [⟨"a", "b", 1⟩]⟩ "a" "s" ∧
    getTrustDistance ⟨[⟨"a", none, none⟩], [], [⟨"a", "b", 1⟩]⟩ "a" "s" = some 1 :=
  ⟨(clearGraphCache_frame ⟨[⟨"a", none, none⟩], [], [⟨"a", "b", 1⟩]⟩ "s").2.2.2.2.1
      ⟨"a", none, none⟩ (by decide),
   (clearGraphCache_frame ⟨[⟨"a", none, none⟩], [], [⟨"a", "b", 1⟩]⟩ "s").2.2.2.2.2
      ⟨"a", none, none⟩ (by decide) (by decide)⟩

/-- C5: sync step 1 on the contacts relation: with no contact-list record
the relation is untouched; with a record it is replaced wholesale by the
record's p-tag triples; in particular a record referencing only one pubkey
leaves exactly that one contact, whatever was stored before. -/
theorem graphSync_step1_replace :
    (∀ (db : SocialDb) (depth : Nat) (muteEvents followsEvents : List NostrEvent),
      (graphSync db depth [] muteEvents followsEvents).contacts = db.contacts) ∧
    (∀ (db : SocialDb) (depth : Nat) (latest : NostrEvent)
        (rest muteEvents followsEvents : List NostrEvent),
      (graphSync db depth (latest :: rest) muteEvents followsEvents).contacts
        = bulkInsertContacts []
            ((pTags latest).map (fun t => ⟨t.getD 1 "", t.get? 2, t.get? 3⟩))) ∧
    (∀ (db : SocialDb) (depth : Nat) (author a : String)
        (muteEvents followsEvents : List NostrEvent),
      (graphSync db depth [⟨author, [["p", a]]⟩] muteEvents followsEvents).contacts
        = [⟨a, none, none⟩]) := by
  refine ⟨?_, ?_, ?_⟩
  · intro db depth mE fE
    unfold graphSync
    rw [syncCacheStep_contacts, syncMutesStep_contacts]
    rfl
  · intro db depth latest rest mE fE
    unfold graphSync
    rw [syncCacheStep_contacts, syncMutesStep_contacts]
    rfl
  · intro db depth author a mE fE
    unfold graphSync
    rw [syncCacheStep_contacts, syncMutesStep_contacts]
    show bulkInsertContacts [] ((pTags ⟨author, [["p", a]]⟩).map
      (fun t => ⟨t.getD 1 "", t.get? 2, t.get? 3⟩)) = [⟨a, none, none⟩]
    rfl

/-- C3 counterexample: a follow-list record that references its own author
makes the sync cache a self-loop edge. -/
theorem graphSync_selfLoop_cex :
    (graphSync ⟨[⟨"c", none, none⟩], [], []⟩ 2 [] [] [⟨"c", [["p", "c"]]⟩]).graph_cache
      = [⟨"c", "c", 1⟩] ∧
    (graphSync ⟨[⟨"c", none, none⟩], [], []⟩ 2 [] [] [⟨"c", [["p", "c"]]⟩]).graph_cache.any
      (fun e => e.source_pubkey == e.target_pubkey) = true := by
  exact ⟨by decide, by decide⟩

/-- C3 amended: after a sync run with depth above 1 the graph cache holds
no self-loop edge, provided no fetched follow-list record lists its own
author among its p-tag references. -/
theorem graphSync_no_selfLoop (db : SocialDb) (depth : Nat)
    (contactEvents muteEvents followsEvents : List NostrEvent)
    (hdepth : 1 < depth)
    (hrecs : ∀ ev ∈ followsEvents, ev.pubkey ∉ pTagValues ev) :
    ∀ e ∈ (graphSync db depth contactEvents muteEvents followsEvents).graph_cache,
      e.source_pubkey ≠ e.target_pubkey := by
  intro e he heq
  unfold graphSync syncCacheStep at he
  rw [if_pos hdepth] at he
  by_cases hlen :
      0 < (clearGraphCache (syncMutesStep (syncContactsStep db contactEvents)
        muteEvents)).contacts.length
  · rw [if_pos hlen] at he
    rcases mem_foldl_updateGraphCache _ _ _ he with h1 | h1
    · simp [clearGraphCache] at h1
    · obtain ⟨ev, hev, hsrc, htgt, _⟩ := h1
      apply hrecs ev hev
      rw [← hsrc, heq]
      exact htgt
  · rw [if_neg hlen] at he
    simp [clearGraphCache] at he

/-- Witness for C3 at a concrete run: one contact, depth 2, one fetched
follow list that does not reference its own author. -/
theorem graphSync_no_selfLoop_witness :
    (1 < 2) ∧ ("c" : String) ≠ "t" :=
  ⟨by decide,
   graphSync_no_selfLoop ⟨[⟨"c", none, none⟩], [], []⟩ 2 [] [] [⟨"c", [["p", "t"]]⟩]
     (by decide) (by decide) ⟨"c", "t", 1⟩ (by decide)⟩

/-- Folding Nat.min keeps a common lower bound of the seed and the list. -/
theorem le_foldl_min (l : List Nat) :
    ∀ (a m : Nat), m ≤ a → (∀ x ∈ l, m ≤ x) → m ≤ l.foldl Nat.min a := by
  induction l with
  | nil => intro a m h _; simpa using h
  | cons x xs ih =>
    intro a m ha hl
    rw [List.foldl_cons]
    exact ih _ _ (Nat.le_min.mpr ⟨ha, hl x (List.mem_cons_self _ _)⟩)
      (fun y hy => hl y (List.mem_cons_of_mem _ hy))

/-- SQL MIN of a column of values at least 1 with a trailing 1 is 1. -/
theorem sqlMin_append_one (ds : List Nat) (h : ∀ d ∈ ds, 1 ≤ d) :
    sqlMin (ds ++ [1]) = some 1 := by
  cases ds with
  | nil => rfl
  | cons d ds' =>
    rw [List.cons_append]
    simp only [sqlMin]
    rw [List.foldl_append]
    have h1 : 1 ≤ ds'.foldl Nat.min d :=
      le_foldl_min ds' d 1 (h d (List.mem_cons_self _ _))
        (fun x hx => h x (List.mem_cons_of_mem _ hx))
    simp only [List.foldl_cons, List.foldl_nil]
    congr 1
    exact Nat.min_eq_right h1

/-- C4 counterexample: the claim quantifies over every target pubkey T,
but with T equal to self the resolver answers 0, not 2, after the edge
upsert. -/
theorem upsertEdges_distance_two_cex :
    isContact ⟨[⟨"c", none, none⟩], [], []⟩ "c" = true ∧
    getTrustDistance (updateGraphCache ⟨[⟨"c", none, none⟩], [], []⟩ "c" ["s"] 1) "s" "s"
      = some 0 ∧
    getTrustDistance (updateGraphCache ⟨[⟨"c", none, none⟩], [], []⟩ "c" ["s"] 1) "s" "s"
      ≠ some 2 :=
  ⟨by decide, by decide, by decide⟩

/-- C4 amended: if C is a direct Contact, T is neither self nor a direct
Contact, and every cached edge from a Contact to T has distance at least 1,
then after upsertEdges(C, [T], 1) the resolver answers distance 2 for T. -/
theorem upsertEdges_distance_two (db : SocialDb) (selfPubkey C T : String)
    (hC : isContact db C = true)
    (hTself : T ≠ selfPubkey)
    (hTcontact : isContact db T = false)
    (hEdges : ∀ e ∈ db.graph_cache, isContact db e.source_pubkey = true →
      e.target_pubkey = T → 1 ≤ e.distance) :
    getTrustDistance (updateGraphCache db C [T] 1) T selfPubkey = some 2 := by
  have hcontacts : (updateGraphCache db C [T] 1).contacts = db.contacts := rfl
  have hany : db.contacts.any (fun c => c.pubkey == C) = true := hC
  have hrows : cacheRowsFor (updateGraphCache db C [T] 1) T
      = (db.graph_cache.filter
          (fun e => !(e.source_pubkey == C && e.target_pubkey == T))).filter
            (fun e => (db.contacts.any (fun c => c.pubkey == e.source_pubkey))
              && e.target_pubkey == T)
        ++ [⟨C, T, 1⟩] := by
    show (upsertEdgeRow db.graph_cache ⟨C, T, 1⟩).filter _ = _
    unfold upsertEdgeRow
    rw [List.filter_append]
    congr 1
    have hex : ∃ x ∈ (updateGraphCache db C [T] 1).contacts, x.pubkey = C := by
      simpa [isContact, List.any_eq_true] using hC
    simp [hex]
  unfold getTrustDistance
  have hb : (T == selfPubkey) = false := by simp [hTself]
  rw [hb]
  simp only [Bool.false_eq_true, if_false]
  rw [hcontacts, contains_map_pubkey, hTcontact]
  simp only [Bool.false_eq_true, if_false]
  rw [hrows, List.map_append]
  have hge : ∀ d ∈ ((db.graph_cache.filter
      (fun e => !(e.source_pubkey == C && e.target_pubkey == T))).filter
        (fun e => (db.contacts.any (fun c => c.pubkey == e.source_pubkey))
          && e.target_pubkey == T)).map (fun e => e.distance), 1 ≤ d := by
    intro d hd
    obtain ⟨e, he, rfl⟩ := List.mem_map.mp hd
    have he1 := List.mem_filter.mp he
    have he2 := List.mem_of_mem_filter he1.1
    have hpred := he1.2
    rw [Bool.and_eq_true] at hpred
    exact hEdges e he2 hpred.1 (by simpa using hpred.2)
  rw [show ([(⟨C, T, 1⟩ : GraphEdge)].map (fun e => e.distance)) = [1] from rfl]
  rw [sqlMin_append_one _ hge]
  rfl

/-- Witness for C4 at a concrete store: one contact, empty cache, a fresh
target distinct from self. -/
theorem upsertEdges_distance_two_witness :
    isContact ⟨[⟨"c", none, none⟩], [], []⟩ "c" = true ∧
    getTrustDistance (updateGraphCache ⟨[⟨"c", none, none⟩], [], []⟩ "c" ["t"] 1) "t" "s"
      = some 2 :=
  ⟨by decide,
   upsertEdges_distance_two ⟨[⟨"c", none, none⟩], [], []⟩ "s" "c" "t"
     (by decide) (by decide) (by decide) (by decide)⟩

/-- Publish fan-out with no relays accepts nothing. -/
theorem publishEvent_nil (settled : List Bool) : publishEvent [] settled = [] := rfl

/-- Publish fan-out with no outcomes accepts nothing. -/
theorem publishEvent_nil_settled (relays : List String) : publishEvent relays [] = [] := by
  cases relays <;> rfl

/-- Unfolding of publish fan-out on a head relay and its outcome. -/
theorem publishEvent_cons (a : String) (as : List String) (b : Bool) (bs : List Bool) :
    publishEvent (a :: as) (b :: bs)
      = if b then a :: publishEvent as bs else publishEvent as bs := by
  cases b <;> simp [publishEvent, List.filter_cons]

/-- Sublist property of the publish fan-out result. -/
theorem publishEvent_sublist (relays : List String) :
    ∀ (settled : List Bool), (publishEvent relays settled).Sublist relays := by
  induction relays with
  | nil => intro s; rw [publishEvent_nil]
  | cons a as ih =>
    intro s
    cases s with
    | nil => rw [publishEvent_nil_settled]; exact List.nil_sublist _
    | cons b bs =>
      rw [publishEvent_cons]
      cases b with
      | false =>
        simp only [Bool.false_eq_true, if_false]
        exact (ih bs).cons a
      | true =>
        simp only [if_true]
        exact (ih bs).cons₂ a

/-- Membership in the publish fan-out result: exactly the relays whose
index-aligned outcome is fulfilled. -/
theorem mem_publishEvent (relays : List String) :
    ∀ (settled : List Bool) (r : String),
      r ∈ publishEvent relays settled ↔
        ∃ i, ∃ (h1 : i < relays.length) (h2 : i < settled.length),
          relays.get ⟨i, h1⟩ = r ∧ settled.get ⟨i, h2⟩ = true := by
  induction relays with
  | nil =>
    intro s r
    rw [publishEvent_nil]
    simp
  | cons a as ih =>
    intro s r
    cases s with
    | nil =>
      rw [publishEvent_nil_settled]
      simp
    | cons b bs =>
      rw [publishEvent_cons]
      cases b with
      | false =>
        simp only [Bool.false_eq_true, if_false]
        rw [ih bs r]
        constructor
        · rintro ⟨i, h1, h2, hg, hs⟩
          exact ⟨i + 1, Nat.succ_lt_succ h1, Nat.succ_lt_succ h2,
            by simpa using hg, by simpa using hs⟩
        · rintro ⟨i, h1, h2, hg, hs⟩
          cases i with
          | zero => exact absurd hs (by simp)
          | succ j =>
            exact ⟨j, Nat.lt_of_succ_lt_succ h1, Nat.lt_of_succ_lt_succ h2,
              by simpa using hg, by simpa using hs⟩
      | true =>
        simp only [if_true, List.mem_cons]
        constructor
        · rintro (rfl | hr)
          · exact ⟨0, Nat.succ_pos _, Nat.succ_pos _, rfl, rfl⟩
          · obtain ⟨i, h1, h2, hg, hs⟩ := (ih bs r).mp hr
            exact ⟨i + 1, Nat.succ_lt_succ h1, Nat.succ_lt_succ h2,
              by simpa using hg, by simpa using hs⟩
        · rintro ⟨i, h1, h2, hg, hs⟩
          cases i with
          | zero => exact Or.inl (by simpa using hg.symm)
          | succ j =>
            exact Or.inr ((ih bs r).mpr ⟨j, Nat.lt_of_succ_lt_succ h1,
              Nat.lt_of_succ_lt_succ h2, by simpa using hg, by simpa using hs⟩)

/-- C7: the publish fan-out result is a subset (sublist) of the input
endpoints, a relay is in the result exactly when its index-aligned send
settled fulfilled, and an endpoint whose send was acknowledged is in the
result independently of the other endpoints' outcomes. -/
theorem publishEvent_spec (relays : List String) (settled : List Bool) :
    (publishEvent relays settled).Sublist relays ∧
    (∀ r, r ∈ publishEvent relays settled ↔
      ∃ i, ∃ (h1 : i < relays.length) (h2 : i < settled.length),
        relays.get ⟨i, h1⟩ = r ∧ settled.get ⟨i, h2⟩ = true) ∧
    (∀ i (h1 : i < relays.length) (h2 : i < settled.length),
      settled.get ⟨i, h2⟩ = true → relays.get ⟨i, h1⟩ ∈ publishEvent relays settled) :=
  ⟨publishEvent_sublist relays settled,
   fun r => mem_publishEvent relays settled r,
   fun i h1 h2 hs => (mem_publishEvent relays settled _).mpr ⟨i, h1, h2, rfl, hs⟩⟩

/-- Witness for C7 at a concrete fan-out: two relays, the first fulfilled
and the second rejected. -/
theorem publishEvent_spec_witness :
    ("r1" : String) ∈ publishEvent ["r1", "r2"] [true, false] :=
  (publishEvent_spec ["r1", "r2"] [true, false]).2.2 0 (by decide) (by decide) (by decide)

/-- The filter-loop body behaves as the keep/drop decision of the
specification: a kept line is appended to the output with the pass count
incremented, a dropped line only increments the drop count. -/
theorem graphFilterStep_eq (db : SocialDb) (selfPubkey : String) (maxDistance : Nat)
    (parse : String → ParseResult) (acc : List String × Nat × Nat) (line : String) :
    graphFilterStep db selfPubkey maxDistance parse acc line
      = if lineKeepSpec db selfPubkey maxDistance parse line
        then (acc.1 ++ [line], acc.2.1 + 1, acc.2.2)
        else (acc.1, acc.2.1, acc.2.2 + 1) := by
  unfold graphFilterStep lineKeepSpec
  cases hp : parse line with
  | fail => simp
  | noAuthor => simp
  | author pk =>
    by_cases hm : isMuted db pk
    · have hempty : filterByTrustDistance db [pk] selfPubkey maxDistance = [] := by
        simp [filterByTrustDistance, List.filter_cons, hm]
      simp [hm, hempty]
    · cases hd : getTrustDistance db pk selfPubkey with
      | none =>
        have hempty : filterByTrustDistance db [pk] selfPubkey maxDistance = [] := by
          simp [filterByTrustDistance, List.filter_cons, hm, hd]
        simp [hm, hempty]
      | some d =>
        by_cases hdm : d ≤ maxDistance
        · have hkeep : filterByTrustDistance db [pk] selfPubkey maxDistance = [pk] := by
            simp [filterByTrustDistance, List.filter_cons, hm, hd, hdm]
          simp [hm, hkeep]
        · have hempty : filterByTrustDistance db [pk] selfPubkey maxDistance = [] := by
            simp [filterByTrustDistance, List.filter_cons, hm, hd, hdm]
          simp [hm, hempty]

/-- The lengths of a Bool filter and of its complement add up to the
length of the list. -/
theorem length_filter_add_length_filter_not (l : List α) (p : α → Bool) :
    (l.filter p).length + (l.filter (fun a => !(p a))).length = l.length := by
  induction l with
  | nil => rfl
  | cons a l ih => cases h : p a <;> simp [List.filter_cons, h] <;> omega

/-- Invariant of the filter loop: starting from any accumulator, the loop
appends exactly the kept lines to the output, adds the number of kept lines
to the pass counter, and adds the number of dropped lines to the drop
counter. -/
theorem graphFilterRun_go (db : SocialDb) (selfPubkey : String) (maxDistance : Nat)
    (parse : String → ParseResult) :
    ∀ (lines : List String) (out : List String) (p f : Nat),
      (lines.foldl (graphFilterStep db selfPubkey maxDistance parse) (out, p, f)).1
        = out ++ lines.filter (lineKeepSpec db selfPubkey maxDistance parse) ∧
      (lines.foldl (graphFilterStep db selfPubkey maxDistance parse) (out, p, f)).2.1
        = p + (lines.filter (lineKeepSpec db selfPubkey maxDistance parse)).length ∧
      (lines.foldl (graphFilterStep db selfPubkey maxDistance parse) (out, p, f)).2.2
        = f + (lines.filter
            (fun l => !(lineKeepSpec db selfPubkey maxDistance parse l))).length := by
  intro lines
  induction lines with
  | nil => intro out p f; exact ⟨by simp, by simp, by simp⟩
  | cons line rest ih =>
    intro out p f
    rw [List.foldl_cons, graphFilterStep_eq]
    by_cases hk : lineKeepSpec db selfPubkey maxDistance parse line = true
    · rw [if_pos hk]
      obtain ⟨h1, h2, h3⟩ := ih (out ++ [line]) (p + 1) f
      refine ⟨?_, ?_, ?_⟩
      · rw [h1, List.filter_cons, if_pos hk]
        simp
      · rw [h2, List.filter_cons, if_pos hk]
        simp [Nat.add_comm, Nat.add_assoc, Nat.add_left_comm]
      · rw [h3, List.filter_cons]
        simp [hk]
    · rw [if_neg hk]
      obtain ⟨h1, h2, h3⟩ := ih out p (f + 1)
      rw [Bool.not_eq_true] at hk
      refine ⟨?_, ?_, ?_⟩
      · rw [h1, List.filter_cons, hk]
        simp
      · rw [h2, List.filter_cons, hk]
        simp
      · rw [h3, List.filter_cons]
        simp [hk, Nat.add_comm, Nat.add_assoc, Nat.add_left_comm]

/-- C6: for every input line list, the filter loop emits exactly the lines
kept by the specified decision (fail-open on unparsable or author-less
lines, otherwise keep exactly when the author survives the trust filter),
the reported pass count is the number of emitted lines, and pass plus drop
counts account for every processed line. -/
theorem graphFilterRun_spec (db : SocialDb) (selfPubkey : String) (maxDistance : Nat)
    (parse : String → ParseResult) (lines : List String) :
    (graphFilterRun db selfPubkey maxDistance parse lines).1
      = lines.filter (lineKeepSpec db selfPubkey maxDistance parse) ∧
    (graphFilterRun db selfPubkey maxDistance parse lines).2.1
      = (graphFilterRun db selfPubkey maxDistance parse lines).1.length ∧
    (graphFilterRun db selfPubkey maxDistance parse lines).2.1
      + (graphFilterRun db selfPubkey maxDistance parse lines).2.2
      = lines.length := by
  obtain ⟨h1, h2, h3⟩ := graphFilterRun_go db selfPubkey maxDistance parse lines [] 0 0
  unfold graphFilterRun
  rw [h1, h2, h3]
  refine ⟨by simp, by simp, ?_⟩
  simpa using length_filter_add_length_filter_not lines
    (lineKeepSpec db selfPubkey maxDistance parse)

/-- C10: the stream-filter command drops empty strings from the trimmed,
newline-split input before processing: the emitted output never contains
an empty line, and the pass and drop counts together count exactly the
nonempty lines. -/
theorem graphFilterCommand_empty_lines (db : SocialDb) (selfPubkey : String)
    (maxDistance : Nat) (parse : String → ParseResult) (input : String) :
    graphFilterCommand db selfPubkey maxDistance parse input
      = graphFilterRun db selfPubkey maxDistance parse
          ((input.trim.splitOn "\n").filter (fun l => l != "")) ∧
    (graphFilterCommand db selfPubkey maxDistance parse input).1.contains "" = false ∧
    (graphFilterCommand db selfPubkey maxDistance parse input).2.1
      + (graphFilterCommand db selfPubkey maxDistance parse input).2.2
      = ((input.trim.splitOn "\n").filter (fun l => l != "")).length := by
  obtain ⟨h1, h2, h3⟩ :=
    graphFilterRun_go db selfPubkey maxDistance parse (linesOf input) [] 0 0
  refine ⟨rfl, ?_, ?_⟩
  · show (graphFilterRun db selfPubkey maxDistance parse (linesOf input)).1.contains ""
      = false
    unfold graphFilterRun
    rw [h1]
    have hnotmem : ("" : String)
        ∉ (linesOf input).filter (lineKeepSpec db selfPubkey maxDistance parse) := by
      intro hmem
      have hmem2 := List.mem_of_mem_filter hmem
      have hpred := List.of_mem_filter hmem2
      simp at hpred
    simpa using hnotmem
  · show (graphFilterRun db selfPubkey maxDistance parse (linesOf input)).2.1
      + (graphFilterRun db selfPubkey maxDistance parse (linesOf input)).2.2
      = (linesOf input).length
    unfold graphFilterRun
    rw [h2, h3]
    simpa using length_filter_add_length_filter_not (linesOf input)
      (lineKeepSpec db selfPubkey maxDistance parse)

/-- Bulk contact insert splits into the surviving prior rows (those whose
pubkey is not among the input keys) followed by the rows produced from the
input alone. -/
theorem bulkInsertContacts_eq_filter_append (items : List Contact) :
    ∀ (rows : List Contact),
      bulkInsertContacts rows items
        = rows.filter (fun r => !((items.map (fun i => i.pubkey)).contains r.pubkey))
          ++ bulkInsertContacts [] items := by
  induction items with
  | nil =>
    intro rows
    show rows = rows.filter _ ++ []
    simp
  | cons i is ih =>
    intro rows
    show bulkInsertContacts (upsertContactRow rows (contactRowOf i)) is
      = rows.filter (fun r => !(((i :: is).map (fun x => x.pubkey)).contains r.pubkey))
        ++ bulkInsertContacts (upsertContactRow [] (contactRowOf i)) is
    rw [ih (upsertContactRow rows (contactRowOf i)),
      ih (upsertContactRow [] (contactRowOf i)), ← List.append_assoc]
    congr 1
    show (upsertContactRow rows (contactRowOf i)).filter
        (fun r => !((is.map (fun x => x.pubkey)).contains r.pubkey))
      = rows.filter (fun r => !(((i :: is).map (fun x => x.pubkey)).contains r.pubkey))
        ++ ([contactRowOf i] : List Contact).filter
            (fun r => !((is.map (fun x => x.pubkey)).contains r.pubkey))
    unfold upsertContactRow
    rw [List.filter_append]
    congr 1
    rw [List.filter_filter]
    apply List.filter_congr
    intro r _
    simp only [contactRowOf, List.map_cons, List.contains_cons, Bool.not_or, Bool.and_comm]
    rfl

/-- The number of rows produced by a bulk insert into the empty relation
is the number of distinct input pubkeys. -/
theorem length_bulkInsertContacts_nil (items : List Contact) :
    (bulkInsertContacts [] items).length
      = (items.map (fun i => i.pubkey)).dedup.length := by
  induction items with
  | nil => rfl
  | cons i is ih =>
    show (bulkInsertContacts (upsertContactRow [] (contactRowOf i)) is).length = _
    rw [show upsertContactRow [] (contactRowOf i) = [contactRowOf i] from rfl,
      bulkInsertContacts_eq_filter_append is [contactRowOf i],
      List.length_append, ih]
    by_cases h : i.pubkey ∈ is.map (fun x => x.pubkey)
    · have hcont : ((is.map (fun x => x.pubkey)).contains i.pubkey) = true := by
        simpa using h
      have hfilter : ([contactRowOf i] : List Contact).filter
          (fun r => !((is.map (fun x => x.pubkey)).contains r.pubkey)) = [] := by
        rw [List.filter_cons, show (contactRowOf i).pubkey = i.pubkey from rfl, hcont]
        simp
      rw [List.map_cons, List.dedup_cons_of_mem h, hfilter]
      simp
    · have hcont : ((is.map (fun x => x.pubkey)).contains i.pubkey) = false := by
        simpa using h
      have hfilter : ([contactRowOf i] : List Contact).filter
          (fun r => !((is.map (fun x => x.pubkey)).contains r.pubkey)) = [contactRowOf i] := by
        rw [List.filter_cons, show (contactRowOf i).pubkey = i.pubkey from rfl, hcont]
        simp
      rw [List.map_cons, List.dedup_cons_of_not_mem h, hfilter]
      simp [Nat.add_comm]

/-- Filtering an upsert result for the upserted pubkey yields exactly the
upserted row. -/
theorem upsert_filter_self (rows : List Contact) (c : Contact) :
    (upsertContactRow rows c).filter (fun r => r.pubkey == c.pubkey) = [c] := by
  unfold upsertContactRow
  rw [List.filter_append, List.filter_filter]
  have h1 : rows.filter (fun r => (r.pubkey == c.pubkey) && (r.pubkey != c.pubkey)) = [] := by
    apply List.filter_eq_nil_iff.mpr
    intro r _
    simp only [bne]
    cases hr : r.pubkey == c.pubkey <;> simp [hr]
  rw [h1, List.nil_append]
  simp [List.filter_cons]

/-- Filtering an upsert result for a different pubkey ignores the upserted
row. -/
theorem upsert_filter_other (rows : List Contact) (c : Contact) (p : String)
    (h : c.pubkey ≠ p) :
    (upsertContactRow rows c).filter (fun r => r.pubkey == p)
      = rows.filter (fun r => r.pubkey == p) := by
  unfold upsertContactRow
  rw [List.filter_append, List.filter_filter]
  have h2 : ([c] : List Contact).filter (fun r => r.pubkey == p) = [] := by
    simp [List.filter_cons, h]
  rw [h2, List.append_nil]
  apply List.filter_congr
  intro r _
  cases hr : r.pubkey == p
  · simp
  · have hrp : r.pubkey = p := by simpa using hr
    simp [hrp, bne_iff_ne, Ne.symm h]

/-- After a bulk insert, the rows stored under a pubkey that occurs in the
input are exactly one row: the one built from the last input occurrence of
that pubkey; rows under other pubkeys are the prior rows. -/
theorem bulkInsertContacts_filter_key (items : List Contact) :
    ∀ (rows : List Contact) (p : String),
      (bulkInsertContacts rows items).filter (fun r => r.pubkey == p)
        = if (items.map (fun i => i.pubkey)).contains p
          then (((items.filter (fun i => i.pubkey == p)).map contactRowOf).getLast?).toList
          else rows.filter (fun r => r.pubkey == p) := by
  induction items with
  | nil =>
    intro rows p
    rw [show bulkInsertContacts rows ([] : List Contact) = rows from rfl,
      show ((([] : List Contact).map (fun i => i.pubkey)).contains p) = false from rfl]
    simp
  | cons i is ih =>
    intro rows p
    show (bulkInsertContacts (upsertContactRow rows (contactRowOf i)) is).filter _ = _
    rw [ih (upsertContactRow rows (contactRowOf i)) p]
    by_cases hin : ((is.map (fun x => x.pubkey)).contains p) = true
    · rw [if_pos hin]
      have hconsTrue : (((i :: is).map (fun x => x.pubkey)).contains p) = true := by
        rw [List.map_cons, List.contains_cons, hin, Bool.or_true]
      rw [if_pos hconsTrue]
      have hne : is.filter (fun x => x.pubkey == p) ≠ [] := by
        have hmem : p ∈ is.map (fun x => x.pubkey) := by simpa using hin
        obtain ⟨x, hx, hxp⟩ := List.mem_map.mp hmem
        intro hnil
        have hxmem : x ∈ is.filter (fun x => x.pubkey == p) :=
          List.mem_filter.mpr ⟨hx, by simp [hxp]⟩
        rw [hnil] at hxmem
        exact (List.not_mem_nil x) hxmem
      rw [List.filter_cons]
      by_cases hip : (i.pubkey == p) = true
      · rw [if_pos hip, List.map_cons]
        cases hm : (is.filter (fun x => x.pubkey == p)).map contactRowOf with
        | nil => exact absurd (List.map_eq_nil_iff.mp hm) hne
        | cons y ys => rw [List.getLast?_cons_cons]
      · rw [if_neg hip]
    · rw [if_neg hin]
      have hnil : is.filter (fun x => x.pubkey == p) = [] := by
        apply List.filter_eq_nil_iff.mpr
        intro x hx hxp
        have : p ∈ is.map (fun y => y.pubkey) :=
          List.mem_map.mpr ⟨x, hx, by simpa using hxp⟩
        exact hin (by simpa using this)
      by_cases hip : i.pubkey = p
      · have hconsTrue : (((i :: is).map (fun x => x.pubkey)).contains p) = true := by
          rw [List.map_cons, List.contains_cons]
          simp [hip]
        rw [if_pos hconsTrue]
        have hA : (upsertContactRow rows (contactRowOf i)).filter (fun r => r.pubkey == p)
            = [contactRowOf i] := by
          have hself := upsert_filter_self rows (contactRowOf i)
          rw [show (contactRowOf i).pubkey = p from hip] at hself
          exact hself
        have hfc : (i.pubkey == p) = true := by simp [hip]
        rw [hA, List.filter_cons, if_pos hfc, hnil, List.map_cons]
        rfl
      · have hinf : ((is.map (fun x => x.pubkey)).contains p) = false := by
          simpa using hin
        have hconsFalse : (((i :: is).map (fun x => x.pubkey)).contains p) = false := by
          rw [List.map_cons, List.contains_cons, hinf]
          simp [Ne.symm hip]
        have hnc : ¬((((i :: is).map (fun x => x.pubkey)).contains p) = true) := by
          rw [hconsFalse]
          simp
        rw [if_neg hnc]
        exact upsert_filter_other rows (contactRowOf i) p hip

/-- C8 counterexample: bulk insert does not clear the relation first, so
with a pre-existing row under another pubkey the count after inserting one
distinct pubkey is 2, not the claimed number of distinct input pubkeys. -/
theorem bulkInsertContacts_cex :
    getContactCount ⟨bulkInsertContacts [⟨"x", none, none⟩] [⟨"y", none, none⟩], [], []⟩ = 2 ∧
    (([⟨"y", none, none⟩] : List Contact).map (fun i => i.pubkey)).dedup.length = 1 ∧
    getContactCount ⟨bulkInsertContacts [⟨"x", none, none⟩] [⟨"y", none, none⟩], [], []⟩ ≠ 1 :=
  ⟨by decide, by decide, by decide⟩

/-- C8 amended: after bulkInsert, each pubkey occurring in the input is
stored in exactly one row carrying the normalised metadata of its last
input occurrence (last write wins); the count afterwards is the number of
distinct input pubkeys plus the surviving prior rows whose pubkey is not
in the input; an empty input is a no-op. -/
theorem bulkInsertContacts_spec (db : SocialDb) (items : List Contact) :
    (∀ p, ((items.map (fun i => i.pubkey)).contains p) = true →
      (bulkInsertContacts db.contacts items).filter (fun r => r.pubkey == p)
        = (((items.filter (fun i => i.pubkey == p)).map contactRowOf).getLast?).toList) ∧
    getContactCount { db with contacts := bulkInsertContacts db.contacts items }
      = (items.map (fun i => i.pubkey)).dedup.length
        + (db.contacts.filter
            (fun r => !((items.map (fun i => i.pubkey)).contains r.pubkey))).length ∧
    bulkInsertContacts db.contacts [] = db.contacts := by
  refine ⟨?_, ?_, rfl⟩
  · intro p hp
    rw [bulkInsertContacts_filter_key items db.contacts p, if_pos hp]
  · show (bulkInsertContacts db.contacts items).length = _
    rw [bulkInsertContacts_eq_filter_append items db.contacts, List.length_append,
      length_bulkInsertContacts_nil, Nat.add_comm]

/-- Witness for C8 at a concrete store: one prior row under pubkey x, two
input items sharing pubkey y with different metadata. -/
theorem bulkInsertContacts_spec_witness :
    ((([⟨"y", some "r", none⟩, ⟨"y", none, some "n"⟩] : List Contact).map
        (fun i => i.pubkey)).contains "y") = true ∧
    (bulkInsertContacts [⟨"x", none, none⟩]
        [⟨"y", some "r", none⟩, ⟨"y", none, some "n"⟩]).filter (fun r => r.pubkey == "y")
      = [⟨"y", none, some "n"⟩] ∧
    getContactCount ⟨bulkInsertContacts [⟨"x", none, none⟩]
        [⟨"y", some "r", none⟩, ⟨"y", none, some "n"⟩], [], []⟩ = 2 := by
  refine ⟨by decide, ?_, ?_⟩
  · exact ((bulkInsertContacts_spec ⟨[⟨"x", none, none⟩], [], []⟩
      [⟨"y", some "r", none⟩, ⟨"y", none, some "n"⟩]).1 "y" (by decide)).trans (by decide)
  · exact ((bulkInsertContacts_spec ⟨[⟨"x", none, none⟩], [], []⟩
      [⟨"y", some "r", none⟩, ⟨"y", none, some "n"⟩]).2.1).trans (by decide)

end Clawstr

